import Mathlib

/-!
Verification development for the request-construction pipeline of
`src/lib/webResource.ts` (class `WebResource`: `prepare` and `clone`).

Modelling conventions (shallow embedding):
* JS strings are `List Char` (`Str`); string literals are written `"...".data`.
* JS `undefined` option fields are `Option _`; JS truthiness of a string is
  `truthyOpt` (absent or empty string is falsy).
* `prepare` throws -> `Except PrepareError`.
* External collaborators (header container, serializer, JSON.stringify, the
  uuid generator) are not part of `src/`; they are modelled from the spec and
  marked as such in their doc comments.
-/

abbrev Str := List Char

/-- Lower-case a string character-wise (models JS `toLowerCase` on the ASCII
range, which is all the code uses for header names). -/
def lowerStr (s : Str) : Str := s.map Char.toLower

/-- Upper-case a string character-wise (models JS `toUpperCase` on the ASCII
range, which is all the code uses for HTTP methods). -/
def upperStr (s : Str) : Str := s.map Char.toUpper

/-- JS truthiness of a possibly-absent string: `undefined` and `""` are falsy. -/
def truthyOpt : Option Str → Bool
  | none => false
  | some s => !s.isEmpty

/-- Unreserved characters of ECMAScript `encodeURIComponent`:
`A-Z a-z 0-9 - _ . ! ~ * ' ( )` are kept verbatim, everything else is
percent-encoded. -/
def uriUnreserved (c : Char) : Bool :=
  c.isAlpha || c.isDigit ||
    (c == '-' || c == '_' || c == '.' || c == '!' || c == '~' || c == '*' ||
     c == '\'' || c == '(' || c == ')')

/-- The sixteen upper-case hexadecimal digit characters. -/
def hexDigits : Str := "0123456789ABCDEF".data

/-- Upper-case hexadecimal digit for `n < 16` (table lookup). -/
def hexDigit (n : Nat) : Char := (hexDigits.drop n).headD '0' 

/-- UTF-8 bytes of a unicode scalar value (as used by `encodeURIComponent`). -/
def utf8Bytes (c : Char) : List Nat :=
  let n := c.toNat
  if n < 0x80 then [n]
  else if n < 0x800 then [0xC0 + n / 0x40, 0x80 + n % 0x40]
  else if n < 0x10000 then
    [0xE0 + n / 0x1000, 0x80 + (n / 0x40) % 0x40, 0x80 + n % 0x40]
  else
    [0xF0 + n / 0x40000, 0x80 + (n / 0x1000) % 0x40,
     0x80 + (n / 0x40) % 0x40, 0x80 + n % 0x40]

/-- `%XY` escape of one byte. -/
def percentByte (b : Nat) : List Char :=
  ['%', hexDigit (b / 16), hexDigit (b % 16)]

/-- ECMAScript `encodeURIComponent` (used by `prepare` for path and query
parameter values). -/
def encodeURIComponent (s : Str) : Str :=
  (s.map (fun c =>
    if uriUnreserved c then [c]
    else ((utf8Bytes c).map percentByte).flatten)).flatten

/-- Header storage: a list of (name, value) pairs with case-insensitive name
matching. Modelled from the spec: the header container (`httpHeaders.ts` is
not under `src/`) is "a case-insensitive string-to-string mapping with
get/set/clone operations"; `set` overwrites an existing entry whose name
differs only by case rather than adding a duplicate. -/
abbrev Headers := List (Str × Str)

/-- Modelled from the spec: case-insensitive header lookup (`HttpHeaders.get`). -/
def hget : Headers → Str → Option Str
  | [], _ => none
  | (hn, hv) :: rest, n => if lowerStr hn = lowerStr n then some hv else hget rest n

/-- Modelled from the spec: case-insensitive header update (`HttpHeaders.set`);
replaces the entry with the same lower-cased name, else appends. -/
def hset : Headers → Str → Str → Headers
  | [], n, v => [(n, v)]
  | (hn, hv) :: rest, n, v =>
    if lowerStr hn = lowerStr n then (n, v) :: rest else (hn, hv) :: hset rest n v

/-- Case-sensitive assoc-map assignment, modelling JS object property
assignment (`this.query[name] = value`): replace if present, else append. -/
def setAssoc : List (Str × Str) → Str → Str → List (Str × Str)
  | [], k, v => [(k, v)]
  | (k0, v0) :: rest, k, v =>
    if k0 = k then (k, v) :: rest else (k0, v0) :: setAssoc rest k v

/-- Case-sensitive assoc lookup, modelling JS object property read
(`pathParameters[name]`); `none` models `undefined`. -/
def lookupAssoc {α : Type} : List (Str × α) → Str → Option α
  | [], _ => none
  | (k, v) :: rest, n => if k = n then some v else lookupAssoc rest n

/-- A path/query parameter value as `prepare` distinguishes them:
`undef` models `null`/`undefined` (falsy, fails the path type check),
`str` a JS string (falsy iff empty), and `obj` the
`{value, skipUrlEncoding}` wrapper, whose `value` is absent (`none`) or a
string (falsy iff empty). -/
inductive ParamValue where
  | undef
  | str (s : Str)
  | obj (value : Option Str) (skipUrlEncoding : Bool)
  deriving DecidableEq

/-- Request body values. `value` is an opaque caller payload token.
`serialized m v` is the output of the external schema serializer
(modelled from the spec: `serialize(schema, value, rootName) -> encoded
value`, kept abstract as a free constructor tagged with the mapper `m`), and
`jsonText v` is the output of `JSON.stringify v` (the JS builtin, likewise
kept abstract as a free constructor). -/
inductive JsValue where
  | value (s : Str)
  | serialized (mapper : Str) (v : JsValue)
  | jsonText (v : JsValue)
  deriving DecidableEq

/-- The request descriptor (class `WebResource`, fields of lines 36-52).
Opaque passthrough handles (`operationSpec`, `abortSignal`, callbacks) are
modelled as string tokens. -/
structure WebResource where
  url : Str
  method : Str
  body : Option JsValue
  headers : Headers
  rawResponse : Bool
  formData : Option JsValue
  query : Option (List (Str × Str))
  operationSpec : Option Str
  abortSignal : Option Str
  onUploadProgress : Option Str
  onDownloadProgress : Option Str
  deriving DecidableEq

/-- A fresh descriptor, `new WebResource()` with no arguments (constructor
lines 54-75: url `""`, method `"GET"`, empty headers, `rawResponse = false`,
everything else `undefined`). -/
def freshWR : WebResource where
  url := []
  method := "GET".data
  body := none
  headers := []
  rawResponse := false
  formData := none
  query := none
  operationSpec := none
  abortSignal := none
  onUploadProgress := none
  onDownloadProgress := none

/-- `RequestPrepareOptions` (lines 331-350). `mappers` and
`deserializationMapper` are omitted: `prepare` only forwards them to the
external serializer, which is abstract here; `formData` is omitted because
`prepare` never reads it. -/
structure RequestPrepareOptions where
  method : Option Str := none
  url : Option Str := none
  queryParameters : Option (List (Str × ParamValue)) := none
  pathTemplate : Option Str := none
  baseUrl : Option Str := none
  pathParameters : Option (List (Str × ParamValue)) := none
  headers : Option (List (Str × Str)) := none
  disableClientRequestId : Bool := false
  body : Option JsValue := none
  serializationMapper : Option Str := none
  disableJsonStringifyOnBody : Bool := false
  bodyIsStream : Bool := false
  abortSignal : Option Str := none
  onUploadProgress : Option Str := none
  onDownloadProgress : Option Str := none
  deriving DecidableEq

/-- The errors `prepare` throws, one constructor per `throw new Error`
site in lines 96-215, in source order. -/
inductive PrepareError where
  | methodMustBeString
  | conflictingUrlSpec
  | missingUrlSpec
  | invalidMethod (m : Str)
  | missingPathParameters (pathTemplate : Str)
  | missingPathParam (name : Str) (pathTemplate : Str)
  | missingPathParamValue (name : Str)
  | missingQueryParamValue (name : Str)
  deriving DecidableEq

/-- The default base URL (line 138). -/
def defaultBaseUrl : Str := "https://management.azure.com".data

/-- The supported HTTP verbs, in the order of line 124. -/
def validMethods : List Str :=
  ["GET", "PUT", "HEAD", "DELETE", "OPTIONS", "POST", "PATCH", "TRACE"].map String.data

def alName : Str := "accept-language".data

def enUSV : Str := "en-US".data

def ridName : Str := "x-ms-client-request-id".data

def ctName : Str := "Content-Type".data

def jsonCTV : Str := "application/json; charset=utf-8".data

def teName : Str := "Transfer-Encoding".data

def chunkedV : Str := "chunked".data

def octetV : Str := "application/octet-stream".data

/-- JS regex `\w` (ASCII word character). -/
def isWordChar (c : Char) : Bool := c.isAlpha || c.isDigit || c == '_'

/-- JS regex `\s` (whitespace; the common ASCII members plus NBSP and BOM —
no placeholder in this repository contains any other unicode space). -/
def isSpaceChar (c : Char) : Bool :=
  c == ' ' || c == '\t' || c == '\n' || c == '\r' || c == '\x0b' ||
  c == '\x0c' || c == ' ' || c == '﻿'

/-- Try to match the regex `\x7b\w*\s*\w*\x7d` at the head of `s`
(the pattern of line 142). The three character classes are pairwise
disjoint, so greedy matching is deterministic and needs no backtracking.
Returns the matched token and the rest of the string. -/
def matchBrace : List Char → Option (Str × Str)
  | [] => none
  | c :: rest =>
    if c = '{' then
      let w1 := rest.takeWhile isWordChar
      let r1 := rest.dropWhile isWordChar
      let sp := r1.takeWhile isSpaceChar
      let r2 := r1.dropWhile isSpaceChar
      let w2 := r2.takeWhile isWordChar
      let r3 := r2.dropWhile isWordChar
      match r3 with
      | [] => none
      | c2 :: r4 =>
        if c2 = '}' then some ('{' :: (w1 ++ sp ++ w2 ++ ['}']), r4) else none
    else none

theorem length_dropWhile_le' (p : Char → Bool) (l : List Char) :
    (l.dropWhile p).length ≤ l.length := by
  induction l with
  | nil => simp [List.dropWhile]
  | cons c rest ih =>
    simp only [List.dropWhile]
    split
    · exact Nat.le_succ_of_le ih
    · exact Nat.le_refl _

theorem matchBrace_rest_lt {s tok r : List Char} (h : matchBrace s = some (tok, r)) :
    r.length < s.length := by
  match s with
  | [] => simp [matchBrace] at h
  | c :: rest =>
    simp only [matchBrace] at h
    split at h
    · split at h
      · exact absurd h (by simp)
      · rename_i r3 c2 r4 heq
        split at h
        · cases h
          have hle : (((rest.dropWhile isWordChar).dropWhile isSpaceChar).dropWhile
              isWordChar).length ≤ rest.length :=
            le_trans (length_dropWhile_le' _ _)
              (le_trans (length_dropWhile_le' _ _) (length_dropWhile_le' _ _))
          rw [heq] at hle
          simp only [List.length_cons] at hle ⊢
          omega
        · exact absurd h (by simp)
    · exact absurd h (by simp)

/-- The scan loop behind `findSegments`, structurally recursive on a fuel
argument so that it evaluates definitionally. Each step consumes at least
one character (`matchBrace_rest_lt`), so fuel equal to the string length
never runs out before the string does. -/
def findSegmentsGo : Nat → List Char → List Str
  | 0, _ => []
  | _, [] => []
  | fuel + 1, c :: rest =>
    match matchBrace (c :: rest) with
    | some (tok, r) => tok :: findSegmentsGo fuel r
    | none => findSegmentsGo fuel rest

/-- All matches of the global regex scan `url.match(/(\x7b\w*\s*\w*\x7d)/ig)`
of line 142, in order: at each position try the pattern; on success continue
after the match, otherwise advance one character. -/
def findSegments (s : List Char) : List Str := findSegmentsGo s.length s

/-- Is `pat` a prefix of `s`? (helper for the JS `String.replace` model). -/
def strHasPre : Str → Str → Bool
  | [], _ => true
  | _ :: _, [] => false
  | p :: ps, c :: cs => if p = c then strHasPre ps cs else false

/-- The backquote character (0x60), written via its code point. -/
def backquote : Char := Char.ofNat 96

/-- The single-quote character (0x27), written via its code point. -/
def quoteChar : Char := Char.ofNat 39

/-- ECMAScript GetSubstitution for a plain-string search value (no capture
groups, no named captures), as `String.prototype.replace` applies it to the
replacement string: `$$` emits `$`, `$&` emits the matched text, a dollar
followed by a backquote emits the part of the subject before the match, a
dollar followed by a single quote emits the part after the match; any other
`$` sequence (digits, `$<`, a trailing `$`) is copied literally: an
unrecognized `$` and the character after it are both emitted verbatim, which
coincides with the spec's resume-after-the-dollar scanning because that next
character is not a dollar. -/
def getSubstitution (matched before after : Str) : Str → Str
  | [] => []
  | c :: rest =>
    if c = '$' then
      match rest with
      | [] => ['$']
      | c2 :: rest2 =>
        if c2 = '$' then '$' :: getSubstitution matched before after rest2
        else if c2 = '&' then matched ++ getSubstitution matched before after rest2
        else if c2 = backquote then before ++ getSubstitution matched before after rest2
        else if c2 = quoteChar then after ++ getSubstitution matched before after rest2
        else '$' :: c2 :: getSubstitution matched before after rest2
    else c :: getSubstitution matched before after rest

/-- The scan loop of `jsReplaceFirst`: `acc` is the part of the subject
already passed over (the text preceding the match position). -/
def jsReplaceFirstAux (pat repl : Str) : Str → Str → Str
  | acc, c :: rest =>
    if strHasPre pat (c :: rest) then
      acc ++ getSubstitution pat acc ((c :: rest).drop pat.length) repl
        ++ (c :: rest).drop pat.length
    else jsReplaceFirstAux pat repl (acc ++ [c]) rest
  | acc, [] =>
    if strHasPre pat [] then acc ++ getSubstitution pat acc [] repl else acc

/-- JS `s.replace(pat, repl)` with a plain string pattern: replace the first
occurrence only, processing the replacement through GetSubstitution
(`$`-patterns); if the pattern does not occur, return `s` unchanged. -/
def jsReplaceFirst (s pat repl : Str) : Str := jsReplaceFirstAux pat repl [] s

/-- The `segments.forEach` substitution loop of lines 147-171: for each
matched token, look the name (token minus braces) up in `pathParameters` and
replace the first occurrence of the token in the evolving url. -/
def substituteSegments (pt : Str) (ps : List (Str × ParamValue)) :
    List Str → Str → Except PrepareError Str
  | [], url => .ok url
  | item :: rest, url =>
    let name := (item.drop 1).dropLast
    match lookupAssoc ps name with
    | none => .error (.missingPathParam name pt)
    | some .undef => .error (.missingPathParam name pt)
    | some (.str s) =>
      substituteSegments pt ps rest (jsReplaceFirst url item (encodeURIComponent s))
    | some (.obj val sk) =>
      match val with
      | none => .error (.missingPathParamValue name)
      | some v =>
        if v = [] then .error (.missingPathParamValue name)
        else
          substituteSegments pt ps rest
            (jsReplaceFirst url item (if sk then v else encodeURIComponent v))

/-- URL construction from a path template (lines 132-174): default the base
URL when absent or empty, join base and template with exactly one slash,
then substitute every matched placeholder. -/
def resolvePathUrl (baseUrl : Option Str) (pt : Str)
    (pathParameters : Option (List (Str × ParamValue))) : Except PrepareError Str :=
  let base := match baseUrl with
    | none => defaultBaseUrl
    | some b => if b = [] then defaultBaseUrl else b
  let url := base ++ (if base.getLast? = some '/' then [] else ['/']) ++
    (if pt.head? = some '/' then pt.drop 1 else pt)
  match findSegments url with
  | [] => .ok url
  | seg :: segs =>
    match pathParameters with
    | none => .error (.missingPathParameters pt)
    | some ps => substituteSegments pt ps (seg :: segs) url

/-- The query-string accumulation loop of lines 189-212: `pairs` collects the
`name=value` strings pushed onto `queryParams`, `qmap` is `this.query`.
Falsy values (absent, `undefined`, empty string) are skipped; a wrapper
object with a falsy `value` throws. -/
def buildQueryPairs : List (Str × ParamValue) → List Str → List (Str × Str) →
    Except PrepareError (List Str × List (Str × Str))
  | [], pairs, qmap => .ok (pairs, qmap)
  | (n, pv) :: rest, pairs, qmap =>
    match pv with
    | .undef => buildQueryPairs rest pairs qmap
    | .str s =>
      if s = [] then buildQueryPairs rest pairs qmap
      else
        buildQueryPairs rest (pairs ++ [n ++ '=' :: encodeURIComponent s])
          (setAssoc qmap n (encodeURIComponent s))
    | .obj val sk =>
      match val with
      | none => .error (.missingQueryParamValue n)
      | some v =>
        if v = [] then .error (.missingQueryParamValue n)
        else if sk then
          buildQueryPairs rest (pairs ++ [n ++ '=' :: v]) (setAssoc qmap n v)
        else
          buildQueryPairs rest (pairs ++ [n ++ '=' :: encodeURIComponent v])
            (setAssoc qmap n (encodeURIComponent v))

/-- JS `queryParams.join("&")` (line 214). -/
def joinAmp : List Str → Str
  | [] => []
  | [x] => x
  | x :: y :: rest => x ++ '&' :: joinAmp (y :: rest)

/-- Query composition (lines 176-215): append `?` when the url is non-empty
and has none, build the pairs, join them with `&` and append. Returns the
new url and the map stored in `this.query`. -/
def composeQuery (url0 : Str) (qps : List (Str × ParamValue)) :
    Except PrepareError (Str × List (Str × Str)) :=
  let url1 := if url0 ≠ [] ∧ '?' ∉ url0 then url0 ++ ['?'] else url0
  match buildQueryPairs qps [] [] with
  | .error e => .error e
  | .ok (pairs, qmap) => .ok (url1 ++ joinAmp pairs, qmap)

/-- The caller-header merge of lines 218-223 (each entry `set` in order). -/
def mergeHeaders (hs : Headers) : Option (List (Str × Str)) → Headers
  | none => hs
  | some l => l.foldl (fun h p => hset h p.1 p.2) hs

/-- Stream mode, lines 243-245: set `Transfer-Encoding: chunked` only when
the current value is falsy. -/
def teStep (hs : Headers) : Headers :=
  if truthyOpt (hget hs teName) = true then hs else hset hs teName chunkedV

/-- Stream mode, lines 246-248: force `Content-Type: application/octet-stream`
whenever the current value is not exactly that string. -/
def ctForce (hs : Headers) : Headers :=
  if hget hs ctName = some octetV then hs else hset hs ctName octetV

/-- Body encoding (lines 238-257), given the headers as they stand after
defaulting. Faithful to the source: in the non-stream branch, line 254
stringifies `options.body` (the raw input), not `this.body`, so a
schema-serialized result computed on line 251 is discarded whenever JSON
stringification is enabled. -/
def encodeBody (hs : Headers) (body : Option JsValue) (bodyIsStream : Bool)
    (serializationMapper : Option Str) (disableJsonStringifyOnBody : Bool) :
    Headers × Option JsValue :=
  match body with
  | none => (hs, none)
  | some b =>
    if bodyIsStream then
      (ctForce (teStep hs), some b)
    else
      let b1 := match serializationMapper with
        | some m => JsValue.serialized m b
        | none => b
      let b2 := if disableJsonStringifyOnBody then b1 else JsValue.jsonText b
      (hs, some b2)

/-- The `pathTemplate` block of lines 131-174 as it acts on the descriptor:
when a truthy `pathTemplate` is supplied, resolve it and store the url. -/
def applyPathStep (wr2 : WebResource) (o : RequestPrepareOptions) :
    Except PrepareError WebResource :=
  match o.pathTemplate with
  | some pt =>
    if pt ≠ [] then
      match resolvePathUrl o.baseUrl pt o.pathParameters with
      | .error e => .error e
      | .ok u => .ok { wr2 with url := u }
    else .ok wr2
  | none => .ok wr2

/-- The `queryParameters` block of lines 176-215 as it acts on the
descriptor: compose the query into the url and store the fresh query map. -/
def applyQueryStep (wr3 : WebResource) (o : RequestPrepareOptions) :
    Except PrepareError WebResource :=
  match o.queryParameters with
  | none => .ok wr3
  | some qps =>
    match composeQuery wr3.url qps with
    | .error e => .error e
    | .ok p => .ok { wr3 with url := p.1, query := some p.2 }

/-- Lines 224-227: default `accept-language` to `en-US` when falsy. -/
def alStep (hs : Headers) : Headers :=
  if truthyOpt (hget hs alName) = true then hs else hset hs alName enUSV

/-- Lines 228-231: default `x-ms-client-request-id` to the generated uuid
when it is falsy and the caller has not disabled it. -/
def ridStep (hs : Headers) (disableId : Bool) (uuid : Str) : Headers :=
  if truthyOpt (hget hs ridName) = false ∧ disableId = false then
    hset hs ridName uuid else hs

/-- Lines 233-236: default `Content-Type` to the JSON content type when
falsy. -/
def ctStep (hs : Headers) : Headers :=
  if truthyOpt (hget hs ctName) = true then hs else hset hs ctName jsonCTV

/-- Header defaulting (lines 224-236), applied to the headers as they stand
after the caller merge. `uuid` models the external `generateUuid` result. -/
def defaultHeaders (hs0 : Headers) (disableId : Bool) (uuid : Str) : Headers :=
  ctStep (ridStep (alStep hs0) disableId uuid)

/-- The header and body tail of `prepare` (lines 218-263): merge caller
headers, apply defaults, encode the body, store the passthrough handles. -/
def applyHeadersAndBody (wr4 : WebResource) (o : RequestPrepareOptions)
    (uuid : Str) : WebResource :=
  let hs3 := defaultHeaders (mergeHeaders wr4.headers o.headers)
    o.disableClientRequestId uuid
  let hb := encodeBody hs3 o.body o.bodyIsStream o.serializationMapper
    o.disableJsonStringifyOnBody
  { wr4 with
    headers := hb.1
    body := hb.2
    abortSignal := o.abortSignal
    onDownloadProgress := o.onDownloadProgress
    onUploadProgress := o.onUploadProgress }

/-- `WebResource.prepare` (lines 96-264). `uuid` is the value produced by the
external `generateUuid` collaborator (modelled from the spec: "a freshly
generated unique identifier (delegated to an external generator)"), passed
in as an argument. -/
def prepare (wr : WebResource) (o : RequestPrepareOptions) (uuid : Str) :
    Except PrepareError WebResource :=
  match o.method with
  | none => .error .methodMustBeString
  | some m =>
    if truthyOpt o.url = true ∧ truthyOpt o.pathTemplate = true then
      .error .conflictingUrlSpec
    else if o.pathTemplate = none ∧ o.url = none then
      .error .missingUrlSpec
    else
      let wr1 := match o.url with
        | some u => if u ≠ [] then { wr with url := u } else wr
        | none => wr
      if m ≠ [] ∧ upperStr m ∉ validMethods then .error (.invalidMethod m)
      else
        let wr2 := { wr1 with method := upperStr m }
        match applyPathStep wr2 o with
        | .error e => .error e
        | .ok wr3 =>
          match applyQueryStep wr3 o with
          | .error e => .error e
          | .ok wr4 => .ok (applyHeadersAndBody wr4 o uuid)

/-- Did a `prepare` call succeed? -/
def prepOk {α : Type} : Except PrepareError α → Bool
  | .ok _ => true
  | .error _ => false

/-- Extract the descriptor of a successful `prepare`, with a fallback. -/
def okD (r : Except PrepareError WebResource) (d : WebResource) : WebResource :=
  match r with
  | .ok w => w
  | .error _ => d

/-- JS `s || d` on strings. -/
def jsOrStr (s d : Str) : Str := if s = [] then d else s

/-- Descriptor with the header container held by reference, for the aliasing
contract of `clone` (line 276 passes `this.headers.clone()`, a fresh
container). All other fields are plain values. -/
structure WebResourceRef where
  url : Str
  method : Str
  body : Option JsValue
  headersRef : Nat
  rawResponse : Bool
  formData : Option JsValue
  query : Option (List (Str × Str))
  operationSpec : Option Str
  abortSignal : Option Str
  onUploadProgress : Option Str
  onDownloadProgress : Option Str
  deriving DecidableEq

/-- A store of header containers, indexed by reference. -/
abbrev HeaderHeap := List Headers

/-- Read the container a reference points to. -/
def readH : HeaderHeap → Nat → Headers
  | [], _ => []
  | x :: _, 0 => x
  | _ :: rest, n + 1 => readH rest n

/-- Overwrite the container a reference points to. -/
def writeH : HeaderHeap → Nat → Headers → HeaderHeap
  | [], _, _ => []
  | _ :: rest, 0, h => h :: rest
  | x :: rest, n + 1, h => x :: writeH rest n h

/-- Mutate one header in the container a reference points to
(`headers.set(name, value)` on a shared container). -/
def setHeaderAt (hp : HeaderHeap) (r : Nat) (n v : Str) : HeaderHeap :=
  writeH hp r (hset (readH hp r) n v)

/-- `WebResource.clone` (lines 270-284) over the heap model: the constructor
(lines 54-75) receives `this.headers.clone()` — a freshly allocated container
with the same entries (modelled from the spec: `clone() -> new container`) —
plus the scalar and reference fields; `formData` and `operationSpec` are then
assigned on the result. The constructor applies `url || ""` and
`method || "GET"` to the copied fields. -/
def cloneWR (hp : HeaderHeap) (w : WebResourceRef) : HeaderHeap × WebResourceRef :=
  let fresh := hp.length
  let hp' := hp ++ [readH hp w.headersRef]
  (hp',
   { url := jsOrStr w.url []
     method := jsOrStr w.method ("GET".data)
     body := w.body
     headersRef := fresh
     rawResponse := w.rawResponse
     formData := w.formData
     query := w.query
     operationSpec := w.operationSpec
     abortSignal := w.abortSignal
     onUploadProgress := w.onUploadProgress
     onDownloadProgress := w.onDownloadProgress })

/-- View a functional descriptor in the heap model, its headers stored at
reference `r`. -/
def toRef (w : WebResource) (r : Nat) : WebResourceRef where
  url := w.url
  method := w.method
  body := w.body
  headersRef := r
  rawResponse := w.rawResponse
  formData := w.formData
  query := w.query
  operationSpec := w.operationSpec
  abortSignal := w.abortSignal
  onUploadProgress := w.onUploadProgress
  onDownloadProgress := w.onDownloadProgress

theorem hget_hset_same (hs : Headers) (n n' v : Str) (h : lowerStr n' = lowerStr n) :
    hget (hset hs n v) n' = some v := by
  induction hs with
  | nil => simp [hset, hget, h]
  | cons p rest ih =>
    obtain ⟨hn, hv⟩ := p
    by_cases hc : lowerStr hn = lowerStr n
    · simp [hset, hc, hget, h]
    · simp only [hset, if_neg hc, hget]
      rw [if_neg (fun hh => hc (hh.trans h))]
      exact ih

theorem hget_hset_diff (hs : Headers) (n n' v : Str) (h : lowerStr n' ≠ lowerStr n) :
    hget (hset hs n v) n' = hget hs n' := by
  induction hs with
  | nil =>
    simp only [hset, hget]
    rw [if_neg (fun hh => h hh.symm)]
  | cons p rest ih =>
    obtain ⟨hn, hv⟩ := p
    by_cases hc : lowerStr hn = lowerStr n
    · simp only [hset, if_pos hc, hget]
      rw [if_neg (fun hh => h hh.symm),
        if_neg (fun hh => h ((hc.symm.trans hh).symm))]
    · simp only [hset, if_neg hc, hget]
      split
      · rfl
      · exact ih

theorem strHasPre_append (pat b : Str) : strHasPre pat (pat ++ b) = true := by
  induction pat with
  | nil => simp [strHasPre]
  | cons p ps ih => simpa [strHasPre] using ih

theorem getSubstitution_cons_ne (m b a : Str) (c : Char) (rest : Str)
    (h : ¬ c = '$') :
    getSubstitution m b a (c :: rest) = c :: getSubstitution m b a rest := by
  conv_lhs => rw [getSubstitution.eq_def]
  change (if c = '$' then _ else c :: getSubstitution m b a rest) = _
  rw [if_neg h]

theorem getSubstitution_no_dollar (m b a repl : Str) (h : '$' ∉ repl) :
    getSubstitution m b a repl = repl := by
  induction repl with
  | nil => rfl
  | cons c rest ih =>
    have hc : ¬ c = '$' := fun hh => h (by simp [hh])
    rw [getSubstitution_cons_ne m b a c rest hc,
      ih (fun hm => h (List.mem_cons_of_mem _ hm))]

theorem jsReplaceFirstAux_skip (c0 : Char) (ps repl : Str) (a : Str)
    (ha : c0 ∉ a) : ∀ acc b,
    jsReplaceFirstAux (c0 :: ps) repl acc (a ++ b)
      = jsReplaceFirstAux (c0 :: ps) repl (acc ++ a) b := by
  induction a with
  | nil =>
    intro acc b
    simp
  | cons x a' ih =>
    intro acc b
    have hx : ¬ (c0 = x) := fun hh => ha (by simp [hh])
    have hpre : strHasPre (c0 :: ps) (x :: (a' ++ b)) = false := by
      simp only [strHasPre, if_neg hx]
    show jsReplaceFirstAux (c0 :: ps) repl acc (x :: (a' ++ b)) = _
    rw [show jsReplaceFirstAux (c0 :: ps) repl acc (x :: (a' ++ b))
        = jsReplaceFirstAux (c0 :: ps) repl (acc ++ [x]) (a' ++ b) from by
      simp only [jsReplaceFirstAux]
      rw [if_neg (by simp [hpre])]]
    rw [ih (fun hm => ha (List.mem_cons_of_mem _ hm)) (acc ++ [x]) b]
    congr 1
    simp

theorem jsReplaceFirstAux_match (pat repl acc b : Str) (hp : pat ≠ []) :
    jsReplaceFirstAux pat repl acc (pat ++ b)
      = acc ++ getSubstitution pat acc b repl ++ b := by
  match pat, hp with
  | p :: ps, _ =>
    have hpre : strHasPre (p :: ps) (p :: (ps ++ b)) = true :=
      strHasPre_append (p :: ps) b
    have hd : (p :: (ps ++ b)).drop (p :: ps).length = b :=
      List.drop_left (p :: ps) b
    show jsReplaceFirstAux (p :: ps) repl acc (p :: (ps ++ b)) = _
    simp only [jsReplaceFirstAux]
    rw [if_pos hpre, hd]

theorem jsReplaceFirst_mid_nd (a pat b repl : Str) (c0 : Char) (ps : Str)
    (hpat : pat = c0 :: ps) (ha : c0 ∉ a) (hd : '$' ∉ repl) :
    jsReplaceFirst (a ++ (pat ++ b)) pat repl = a ++ (repl ++ b) := by
  subst hpat
  have h1 : jsReplaceFirstAux (c0 :: ps) repl [] (a ++ ((c0 :: ps) ++ b))
      = jsReplaceFirstAux (c0 :: ps) repl a ((c0 :: ps) ++ b) := by
    have h0 := jsReplaceFirstAux_skip c0 ps repl a ha [] ((c0 :: ps) ++ b)
    simpa using h0
  show jsReplaceFirstAux (c0 :: ps) repl [] (a ++ ((c0 :: ps) ++ b))
    = a ++ (repl ++ b)
  rw [h1, jsReplaceFirstAux_match (c0 :: ps) repl a b (by simp),
    getSubstitution_no_dollar _ _ _ _ hd, List.append_assoc]

theorem hget_teStep_self (hs : Headers) :
    hget (teStep hs) teName =
      if truthyOpt (hget hs teName) = true then hget hs teName
      else some chunkedV := by
  simp only [teStep]
  split
  · rfl
  · exact hget_hset_same _ _ _ _ rfl

theorem hget_teStep_other (hs : Headers) (n : Str)
    (h : lowerStr n ≠ lowerStr teName) : hget (teStep hs) n = hget hs n := by
  simp only [teStep]
  split
  · rfl
  · exact hget_hset_diff _ _ _ _ h

theorem hget_ctForce_self (hs : Headers) :
    hget (ctForce hs) ctName = some octetV := by
  simp only [ctForce]
  split
  · assumption
  · exact hget_hset_same _ _ _ _ rfl

theorem hget_ctForce_other (hs : Headers) (n : Str)
    (h : lowerStr n ≠ lowerStr ctName) : hget (ctForce hs) n = hget hs n := by
  simp only [ctForce]
  split
  · rfl
  · exact hget_hset_diff _ _ _ _ h

theorem hget_alStep_self (hs : Headers) :
    hget (alStep hs) alName =
      if truthyOpt (hget hs alName) = true then hget hs alName
      else some enUSV := by
  simp only [alStep]
  split
  · rfl
  · exact hget_hset_same _ _ _ _ rfl

theorem hget_alStep_other (hs : Headers) (n : Str)
    (h : lowerStr n ≠ lowerStr alName) : hget (alStep hs) n = hget hs n := by
  simp only [alStep]
  split
  · rfl
  · exact hget_hset_diff _ _ _ _ h

theorem hget_ridStep_self (hs : Headers) (d : Bool) (u : Str) :
    hget (ridStep hs d u) ridName =
      if truthyOpt (hget hs ridName) = false ∧ d = false then some u
      else hget hs ridName := by
  simp only [ridStep]
  split
  · exact hget_hset_same _ _ _ _ rfl
  · rfl

theorem hget_ridStep_other (hs : Headers) (d : Bool) (u : Str) (n : Str)
    (h : lowerStr n ≠ lowerStr ridName) : hget (ridStep hs d u) n = hget hs n := by
  simp only [ridStep]
  split
  · exact hget_hset_diff _ _ _ _ h
  · rfl

theorem hget_ctStep_self (hs : Headers) :
    hget (ctStep hs) ctName =
      if truthyOpt (hget hs ctName) = true then hget hs ctName
      else some jsonCTV := by
  simp only [ctStep]
  split
  · rfl
  · exact hget_hset_same _ _ _ _ rfl

theorem hget_ctStep_other (hs : Headers) (n : Str)
    (h : lowerStr n ≠ lowerStr ctName) : hget (ctStep hs) n = hget hs n := by
  simp only [ctStep]
  split
  · rfl
  · exact hget_hset_diff _ _ _ _ h

theorem defaultHeaders_al (hs : Headers) (d : Bool) (u : Str) :
    hget (defaultHeaders hs d u) alName =
      if truthyOpt (hget hs alName) = true then hget hs alName
      else some enUSV := by
  simp only [defaultHeaders]
  rw [hget_ctStep_other _ _ (by decide), hget_ridStep_other _ _ _ _ (by decide)]
  exact hget_alStep_self hs

theorem defaultHeaders_rid (hs : Headers) (d : Bool) (u : Str) :
    hget (defaultHeaders hs d u) ridName =
      if truthyOpt (hget hs ridName) = false ∧ d = false then some u
      else hget hs ridName := by
  simp only [defaultHeaders]
  rw [hget_ctStep_other _ _ (by decide), hget_ridStep_self,
    hget_alStep_other _ _ (by decide)]

theorem defaultHeaders_ct (hs : Headers) (d : Bool) (u : Str) :
    hget (defaultHeaders hs d u) ctName =
      if truthyOpt (hget hs ctName) = true then hget hs ctName
      else some jsonCTV := by
  simp only [defaultHeaders]
  rw [hget_ctStep_self, hget_ridStep_other _ _ _ _ (by decide),
    hget_alStep_other _ _ (by decide)]

theorem defaultHeaders_other (hs : Headers) (d : Bool) (u : Str) (n : Str)
    (h1 : lowerStr n ≠ lowerStr alName) (h2 : lowerStr n ≠ lowerStr ridName)
    (h3 : lowerStr n ≠ lowerStr ctName) :
    hget (defaultHeaders hs d u) n = hget hs n := by
  simp only [defaultHeaders]
  rw [hget_ctStep_other _ _ h3, hget_ridStep_other _ _ _ _ h2,
    hget_alStep_other _ _ h1]

theorem encodeBody_stream_body (hs : Headers) (b : JsValue) (mp : Option Str)
    (dj : Bool) : (encodeBody hs (some b) true mp dj).2 = some b := rfl

theorem encodeBody_stream_ct (hs : Headers) (b : JsValue) (mp : Option Str)
    (dj : Bool) :
    hget (encodeBody hs (some b) true mp dj).1 ctName = some octetV :=
  hget_ctForce_self (teStep hs)

theorem encodeBody_stream_te (hs : Headers) (b : JsValue) (mp : Option Str)
    (dj : Bool) :
    hget (encodeBody hs (some b) true mp dj).1 teName =
      if truthyOpt (hget hs teName) = true then hget hs teName
      else some chunkedV :=
  (hget_ctForce_other (teStep hs) teName (by decide)).trans (hget_teStep_self hs)

def optsC1 : RequestPrepareOptions :=
  { method := some ("PUT".data)
    url := some ("http://h".data)
    body := some (.value ("B".data))
    serializationMapper := some ("M".data) }

def optsC1d : RequestPrepareOptions :=
  { optsC1 with disableJsonStringifyOnBody := true }

/-- C1: the claim states that with a defined body, a serialization mapper and
JSON stringification enabled, the stored body is the JSON text of the
schema-serialized result. The code (line 254) instead stringifies the raw
`options.body`, discarding the serializer output of line 251: the final body
is `jsonText (value "B")`, not `jsonText (serialized "M" (value "B"))`. The
third conjunct shows the serializer output is kept when stringification is
disabled, which confirms the serializer call itself is live code. -/
theorem c1_stringify_applies_to_raw_body :
    (prepare freshWR optsC1 ("u".data)).map WebResource.body
      = .ok (some (.jsonText (.value ("B".data)))) ∧
    (JsValue.jsonText (.value ("B".data)) ≠
      JsValue.jsonText (.serialized ("M".data) (.value ("B".data)))) ∧
    (prepare freshWR optsC1d ("u".data)).map WebResource.body
      = .ok (some (.serialized ("M".data) (.value ("B".data)))) :=
  ⟨rfl, by decide, rfl⟩

def hdrTEidentity : List (Str × Str) := [(teName, "identity".data)]

def optsC2 (l : List (Str × Str)) (b : JsValue) (mp : Option Str) :
    RequestPrepareOptions :=
  { method := some ("PUT".data)
    url := some ("http://h".data)
    headers := some l
    body := some b
    serializationMapper := mp
    bodyIsStream := true }

def wr2C2 : WebResource :=
  { freshWR with url := "http://h".data, method := "PUT".data }

theorem prepare_optsC2_red (l : List (Str × Str)) (b : JsValue)
    (mp : Option Str) (uuid : Str) :
    prepare freshWR (optsC2 l b mp) uuid =
      .ok (applyHeadersAndBody wr2C2 (optsC2 l b mp) uuid) := rfl

/-- C2 counterexample: a prepare call with `bodyIsStream`, a defined body and
a caller-set `Transfer-Encoding: identity` succeeds and keeps `identity` —
refuting the claim that Transfer-Encoding is set to chunked unconditionally,
overwriting any value the caller already set. -/
theorem c2_counterexample_te_not_overwritten :
    prepOk (prepare freshWR
      (optsC2 hdrTEidentity (.value ("B".data)) (some ("M".data)))
      ("u".data)) = true ∧
    hget (okD (prepare freshWR
      (optsC2 hdrTEidentity (.value ("B".data)) (some ("M".data)))
      ("u".data)) freshWR).headers teName = some ("identity".data) :=
  ⟨rfl, rfl⟩

/-- C2 (amended): for every prepare call with a defined body and
`bodyIsStream` set — whatever serialization mapper and caller headers are
supplied — the body is stored as-is (the serializer is never invoked, no
JSON stringification), Content-Type is forced to
`application/octet-stream`, and Transfer-Encoding is set to `chunked` only
when the merged caller headers carry no truthy Transfer-Encoding value; a
truthy caller-set value is kept. -/
theorem c2_stream_mode_amended (l : List (Str × Str)) (b : JsValue)
    (mp : Option Str) (uuid : Str) (w : WebResource)
    (h : prepare freshWR (optsC2 l b mp) uuid = .ok w) :
    w.body = some b ∧
    hget w.headers ctName = some octetV ∧
    (truthyOpt (hget (mergeHeaders [] (some l)) teName) = false →
      hget w.headers teName = some chunkedV) ∧
    (truthyOpt (hget (mergeHeaders [] (some l)) teName) = true →
      hget w.headers teName = hget (mergeHeaders [] (some l)) teName) := by
  rw [prepare_optsC2_red] at h
  have hw : w = applyHeadersAndBody wr2C2 (optsC2 l b mp) uuid :=
    (Except.ok.inj h).symm
  subst hw
  refine ⟨rfl, ?_, ?_, ?_⟩
  · show hget (encodeBody (defaultHeaders (mergeHeaders [] (some l)) false uuid)
      (some b) true mp false).1 ctName = some octetV
    exact encodeBody_stream_ct _ _ _ _
  · intro ht
    show hget (encodeBody (defaultHeaders (mergeHeaders [] (some l)) false uuid)
      (some b) true mp false).1 teName = some chunkedV
    rw [encodeBody_stream_te,
      defaultHeaders_other _ _ _ _ (by decide) (by decide) (by decide)]
    simp [ht]
  · intro ht
    show hget (encodeBody (defaultHeaders (mergeHeaders [] (some l)) false uuid)
      (some b) true mp false).1 teName = hget (mergeHeaders [] (some l)) teName
    rw [encodeBody_stream_te,
      defaultHeaders_other _ _ _ _ (by decide) (by decide) (by decide)]
    simp [ht]

/-- C2 witness: the amended theorem applied at a concrete input: caller set
`Transfer-Encoding: identity`, so the prepared request keeps `identity` and
still forces the octet-stream Content-Type and the raw body. -/
theorem c2_stream_mode_amended_witness :
    hget (okD (prepare freshWR
      (optsC2 hdrTEidentity (.value ("B".data)) (some ("M".data)))
      ("u".data)) freshWR).headers teName = some ("identity".data) ∧
    hget (okD (prepare freshWR
      (optsC2 hdrTEidentity (.value ("B".data)) (some ("M".data)))
      ("u".data)) freshWR).headers ctName = some octetV ∧
    (okD (prepare freshWR
      (optsC2 hdrTEidentity (.value ("B".data)) (some ("M".data)))
      ("u".data)) freshWR).body = some (.value ("B".data)) := by
  have h := c2_stream_mode_amended hdrTEidentity (.value ("B".data))
    (some ("M".data)) ("u".data)
    (okD (prepare freshWR
      (optsC2 hdrTEidentity (.value ("B".data)) (some ("M".data)))
      ("u".data)) freshWR) rfl
  exact ⟨(h.2.2.2 (by decide)).trans (by decide), h.2.1, h.1⟩

def opts9 (l : List (Str × Str)) (dis : Bool) : RequestPrepareOptions :=
  { method := some ("GET".data)
    url := some ("http://h".data)
    headers := some l
    disableClientRequestId := dis }

def wr2C9 : WebResource :=
  { freshWR with url := "http://h".data, method := "GET".data }

theorem prepare_opts9_red (l : List (Str × Str)) (dis : Bool) (uuid : Str) :
    prepare freshWR (opts9 l dis) uuid =
      .ok (applyHeadersAndBody wr2C9 (opts9 l dis) uuid) := rfl

def hdrALempty : List (Str × Str) := [(alName, [])]

/-- C9 counterexample: the caller sets `accept-language` to the empty string;
the header is present after the merge, yet prepare overwrites it with the
default `en-US`, because the code tests JS truthiness of the value, not
presence — refuting "a header the caller already set is never overwritten by
defaulting" and the "iff no accept-language header is present" reading. -/
theorem c9_counterexample_empty_value_overwritten :
    prepOk (prepare freshWR (opts9 hdrALempty false) ("u".data)) = true ∧
    hget (okD (prepare freshWR (opts9 hdrALempty false) ("u".data))
      freshWR).headers alName = some enUSV :=
  ⟨rfl, rfl⟩

/-- C9 (amended): after the caller headers are merged, `accept-language` is
set to the default locale iff the merged headers carry no truthy (non-empty)
accept-language value; `x-ms-client-request-id` is set to the generated uuid
iff its merged value is not truthy and the caller has not disabled it; and
`Content-Type` is set to the default JSON content type iff the merged
Content-Type value is not truthy. A header the caller set to a non-empty
value is never overwritten by defaulting (body absent, so no stream-mode
override applies). -/
theorem c9_header_defaulting_amended (l : List (Str × Str)) (dis : Bool)
    (uuid : Str) (w : WebResource)
    (h : prepare freshWR (opts9 l dis) uuid = .ok w) :
    (truthyOpt (hget (mergeHeaders [] (some l)) alName) = true →
      hget w.headers alName = hget (mergeHeaders [] (some l)) alName) ∧
    (truthyOpt (hget (mergeHeaders [] (some l)) alName) = false →
      hget w.headers alName = some enUSV) ∧
    (truthyOpt (hget (mergeHeaders [] (some l)) ridName) = true →
      hget w.headers ridName = hget (mergeHeaders [] (some l)) ridName) ∧
    (truthyOpt (hget (mergeHeaders [] (some l)) ridName) = false ∧ dis = false →
      hget w.headers ridName = some uuid) ∧
    (truthyOpt (hget (mergeHeaders [] (some l)) ridName) = false ∧ dis = true →
      hget w.headers ridName = hget (mergeHeaders [] (some l)) ridName) ∧
    (truthyOpt (hget (mergeHeaders [] (some l)) ctName) = true →
      hget w.headers ctName = hget (mergeHeaders [] (some l)) ctName) ∧
    (truthyOpt (hget (mergeHeaders [] (some l)) ctName) = false →
      hget w.headers ctName = some jsonCTV) := by
  rw [prepare_opts9_red] at h
  have hw : w = applyHeadersAndBody wr2C9 (opts9 l dis) uuid :=
    (Except.ok.inj h).symm
  subst hw
  have hh : (applyHeadersAndBody wr2C9 (opts9 l dis) uuid).headers
      = defaultHeaders (mergeHeaders [] (some l)) dis uuid := rfl
  rw [hh]
  refine ⟨?_, ?_, ?_, ?_, ?_, ?_, ?_⟩
  · intro ht; simp [defaultHeaders_al, ht]
  · intro ht; simp [defaultHeaders_al, ht]
  · intro ht; simp [defaultHeaders_rid, ht]
  · intro ht; simp [defaultHeaders_rid, ht.1, ht.2]
  · intro ht; simp [defaultHeaders_rid, ht.1, ht.2]
  · intro ht; simp [defaultHeaders_ct, ht]
  · intro ht; simp [defaultHeaders_ct, ht]

/-- C9 witness: the amended theorem at a concrete input: the caller sets
only `Content-Type: text/plain`; it is kept, while `accept-language` and
`x-ms-client-request-id` receive their defaults. -/
theorem c9_header_defaulting_amended_witness :
    hget (okD (prepare freshWR (opts9 [(ctName, "text/plain".data)] false)
      ("u".data)) freshWR).headers ctName = some ("text/plain".data) ∧
    hget (okD (prepare freshWR (opts9 [(ctName, "text/plain".data)] false)
      ("u".data)) freshWR).headers alName = some enUSV ∧
    hget (okD (prepare freshWR (opts9 [(ctName, "text/plain".data)] false)
      ("u".data)) freshWR).headers ridName = some ("u".data) := by
  have h := c9_header_defaulting_amended [(ctName, "text/plain".data)] false
    ("u".data)
    (okD (prepare freshWR (opts9 [(ctName, "text/plain".data)] false)
      ("u".data)) freshWR) rfl
  refine ⟨(h.2.2.2.2.2.1 (by decide)).trans (by decide),
    h.2.1 (by decide), h.2.2.2.1 ⟨by decide, rfl⟩⟩

def opts3 (m : Str) : RequestPrepareOptions :=
  { method := some m, url := some ("http://h".data) }

def wr1C3 : WebResource := { freshWR with url := "http://h".data }

theorem prepare_opts3_red (m uuid : Str) :
    prepare freshWR (opts3 m) uuid =
      if m ≠ [] ∧ upperStr m ∉ validMethods then .error (.invalidMethod m)
      else .ok (applyHeadersAndBody { wr1C3 with method := upperStr m }
        (opts3 m) uuid) := rfl

/-- C3 counterexample: with the empty string as options.method and a valid
url, prepare succeeds and stores the empty method — the line-123 truthiness
guard skips validation for the empty string, refuting "for any other string
(including the empty string), prepare fails with an InvalidMethod error" and
the invariant that the method is always in the verb set after success. -/
theorem c3_counterexample_empty_method_accepted :
    prepOk (prepare freshWR (opts3 []) ("u".data)) = true ∧
    (prepare freshWR (opts3 []) ("u".data)).map WebResource.method = .ok [] :=
  ⟨rfl, rfl⟩

/-- C3 (amended): for a string options.method and a valid url: if its
upper-casing is one of the eight verbs, prepare succeeds and stores the
upper-cased method; if it is a non-empty string outside the verb set,
prepare fails with the invalid-method error; the empty string bypasses
validation and is stored as the (empty) method. -/
theorem c3_method_validation_amended (m : Str) (uuid : Str) :
    (upperStr m ∈ validMethods →
      (prepare freshWR (opts3 m) uuid).map WebResource.method
        = .ok (upperStr m)) ∧
    (m ≠ [] → upperStr m ∉ validMethods →
      prepare freshWR (opts3 m) uuid = .error (.invalidMethod m)) ∧
    (m = [] →
      (prepare freshWR (opts3 m) uuid).map WebResource.method = .ok []) := by
  refine ⟨?_, ?_, ?_⟩
  · intro hm
    rw [prepare_opts3_red, if_neg (by simp [hm])]
    rfl
  · intro h1 h2
    rw [prepare_opts3_red, if_pos ⟨h1, h2⟩]
  · intro hm
    subst hm
    rw [prepare_opts3_red, if_neg (by simp)]
    rfl

/-- C3 witness: the amended theorem at concrete inputs: a mixed-case verb is
canonicalized, a non-verb string is rejected. -/
theorem c3_method_validation_amended_witness :
    (prepare freshWR (opts3 ("pAtCh".data)) ("u".data)).map WebResource.method
      = .ok ("PATCH".data) ∧
    prepare freshWR (opts3 ("FOO".data)) ("u".data)
      = .error (.invalidMethod ("FOO".data)) := by
  constructor
  · exact (c3_method_validation_amended ("pAtCh".data) ("u".data)).1 (by decide)
  · exact (c3_method_validation_amended ("FOO".data) ("u".data)).2.1
      (by decide) (by decide)

def opts4ce : RequestPrepareOptions :=
  { method := some ("GET".data), url := some [], pathTemplate := some ("/a".data) }

/-- C4 counterexample: both options.url (the empty string) and
options.pathTemplate are supplied, yet prepare succeeds and resolves the URL
from the template instead of failing with the conflicting-url error, because
line 105 tests JS truthiness, not presence. -/
theorem c4_counterexample_empty_url_with_template :
    prepOk (prepare freshWR opts4ce ("u".data)) = true ∧
    (prepare freshWR opts4ce ("u".data)).map WebResource.url
      = .ok (defaultBaseUrl ++ "/a".data) :=
  ⟨rfl, rfl⟩

/-- C4 (amended): supplying both url and pathTemplate as truthy (non-empty)
strings always fails with the conflicting-url error, and supplying neither
option at all always fails with the missing-url error; an empty-string url
does not conflict with a path template (it counts as unsupplied for the
conflict check). -/
theorem c4_url_spec_amended (wr : WebResource) (o : RequestPrepareOptions)
    (uuid : Str) (m : Str) (hm : o.method = some m) :
    (truthyOpt o.url = true → truthyOpt o.pathTemplate = true →
      prepare wr o uuid = .error .conflictingUrlSpec) ∧
    (o.url = none → o.pathTemplate = none →
      prepare wr o uuid = .error .missingUrlSpec) := by
  constructor
  · intro h1 h2
    simp only [prepare, hm]
    rw [if_pos ⟨h1, h2⟩]
  · intro h1 h2
    simp only [prepare, hm]
    rw [if_neg (by simp [h1, truthyOpt]), if_pos ⟨h2, h1⟩]

/-- C4 witness: the amended theorem at concrete inputs: non-empty url plus
template conflicts; no url and no template is missing. -/
theorem c4_url_spec_amended_witness :
    prepare freshWR
      { method := some ("GET".data), url := some ("http://h".data),
        pathTemplate := some ("/a".data) } ("u".data)
      = .error .conflictingUrlSpec ∧
    prepare freshWR { method := some ("GET".data) } ("u".data)
      = .error .missingUrlSpec := by
  constructor
  · exact (c4_url_spec_amended freshWR _ ("u".data) ("GET".data) rfl).1
      (by decide) (by decide)
  · exact (c4_url_spec_amended freshWR _ ("u".data) ("GET".data) rfl).2 rfl rfl

theorem joinAmp_cons_ex (x : Str) (xs : List Str) :
    ∃ t, joinAmp (x :: xs) = x ++ t := by
  cases xs with
  | nil => exact ⟨[], by simp [joinAmp]⟩
  | cons y ys => exact ⟨'&' :: joinAmp (y :: ys), rfl⟩

theorem buildQueryPairs_ok_pre (qps : List (Str × ParamValue)) (pairs : List Str)
    (qmap : List (Str × Str)) (res : List Str) (resm : List (Str × Str))
    (h : buildQueryPairs qps pairs qmap = .ok (res, resm)) :
    ∃ more, res = pairs ++ more := by
  induction qps generalizing pairs qmap with
  | nil =>
    simp only [buildQueryPairs, Except.ok.injEq, Prod.mk.injEq] at h
    exact ⟨[], by simp [h.1]⟩
  | cons p rest ih =>
    obtain ⟨pn, pv⟩ := p
    cases pv with
    | undef =>
      simp only [buildQueryPairs] at h
      exact ih _ _ h
    | str s =>
      by_cases hs : s = []
      · subst hs
        simp only [buildQueryPairs, if_pos rfl] at h
        exact ih _ _ h
      · simp only [buildQueryPairs, if_neg hs] at h
        obtain ⟨more, hmr⟩ := ih _ _ h
        exact ⟨_, by rw [hmr, List.append_assoc]⟩
    | obj val sk =>
      cases val with
      | none => simp [buildQueryPairs] at h
      | some pv' =>
        by_cases hpv : pv' = []
        · subst hpv
          simp [buildQueryPairs] at h
        · simp only [buildQueryPairs, if_neg hpv] at h
          by_cases hsk : sk = true
          · rw [if_pos hsk] at h
            obtain ⟨more, hmr⟩ := ih _ _ h
            exact ⟨_, by rw [hmr, List.append_assoc]⟩
          · rw [if_neg hsk] at h
            obtain ⟨more, hmr⟩ := ih _ _ h
            exact ⟨_, by rw [hmr, List.append_assoc]⟩

/-- C5: for every query composition whose in-progress URL already contains a
question mark and whose first parameter is a truthy string, the resulting
URL is the old URL followed directly by the first encoded pair — no
ampersand (and no second question mark) is inserted between the existing URL
text and the first appended pair. -/
theorem c5_no_separator_after_existing_query (url n v : Str)
    (rest : List (Str × ParamValue)) (u' : Str) (qm : List (Str × Str))
    (hq : '?' ∈ url) (hv : v ≠ [])
    (h : composeQuery url ((n, .str v) :: rest) = .ok (u', qm)) :
    ∃ tail, u' = url ++ (n ++ '=' :: encodeURIComponent v) ++ tail := by
  have h1 : (if url ≠ [] ∧ '?' ∉ url then url ++ ['?'] else url) = url := by
    rw [if_neg]
    rintro ⟨-, hno⟩
    exact hno hq
  simp only [composeQuery, h1] at h
  simp only [buildQueryPairs, if_neg hv, List.nil_append] at h
  cases hb : buildQueryPairs rest [n ++ '=' :: encodeURIComponent v]
      (setAssoc [] n (encodeURIComponent v)) with
  | error e =>
    rw [hb] at h
    simp at h
  | ok p =>
    rw [hb] at h
    obtain ⟨pairs, qm2⟩ := p
    have h2 : (Except.ok (url ++ joinAmp pairs, qm2) :
        Except PrepareError (Str × List (Str × Str))) = .ok (u', qm) := h
    injection h2 with h3
    injection h3 with h4 h5
    obtain ⟨more, hmr⟩ := buildQueryPairs_ok_pre _ _ _ _ _ hb
    rw [hmr] at h4
    simp only [List.singleton_append] at h4
    obtain ⟨t, ht⟩ := joinAmp_cons_ex (n ++ '=' :: encodeURIComponent v) more
    rw [ht] at h4
    refine ⟨t, ?_⟩
    rw [← h4]
    simp

/-- C5 witness: the theorem at the spec's concrete input: a URL already
ending in `?a=1` plus the parameter b=2 yields `...?a=1b=2`. -/
theorem c5_no_separator_witness :
    ∃ tail, "http://h?a=1b=2".data =
      "http://h?a=1".data ++ ("b".data ++ '=' :: encodeURIComponent ("2".data))
        ++ tail :=
  c5_no_separator_after_existing_query ("http://h?a=1".data) ("b".data)
    ("2".data) [] ("http://h?a=1b=2".data) [("b".data, "2".data)]
    (by decide) (by decide) rfl

def opts6q : RequestPrepareOptions :=
  { method := some ("GET".data)
    url := some ("http://h".data)
    queryParameters := some [("q".data, .str ("a&b".data))] }

/-- C6: in query composition, entries with falsy values (empty string,
undefined) are silently skipped; a truthy string value v under name n adds
the pair n=encodeURIComponent(v) to the URL and records the already-encoded
value under n in the query map, which reflects exactly the appended
parameters. The second conjunct is the spec's concrete example through
prepare: queryParameters q: "a&b" yields q=a%26b in the url and
q -> a%26b in the descriptor's query map. -/
theorem c6_query_encoding (url n v n1 n2 : Str)
    (hv : v ≠ []) (hu : url ≠ []) (hq : '?' ∉ url) :
    composeQuery url [(n1, .str []), (n, .str v), (n2, .undef)]
      = .ok (url ++ '?' :: (n ++ '=' :: encodeURIComponent v),
             [(n, encodeURIComponent v)]) ∧
    (prepare freshWR opts6q ("u".data)).map (fun w => (w.url, w.query))
      = .ok ("http://h?q=a%26b".data, some [("q".data, "a%26b".data)]) := by
  constructor
  · have h1 : (if url ≠ [] ∧ '?' ∉ url then url ++ ['?'] else url)
        = url ++ ['?'] := if_pos ⟨hu, hq⟩
    simp only [composeQuery, h1]
    simp only [buildQueryPairs, if_pos rfl, if_neg hv, List.nil_append]
    simp only [setAssoc, joinAmp]
    simp [List.append_assoc]
    rfl
  · rfl

/-- C6 witness: the theorem at the spec's concrete input, with a skipped
empty-string entry and a skipped undefined entry around q: "a&b". -/
theorem c6_query_encoding_witness :
    composeQuery ("http://h".data)
      [("z1".data, .str []), ("q".data, .str ("a&b".data)), ("z2".data, .undef)]
      = .ok ("http://h".data ++ '?' ::
          ("q".data ++ '=' :: encodeURIComponent ("a&b".data)),
        [("q".data, encodeURIComponent ("a&b".data))]) :=
  (c6_query_encoding ("http://h".data) ("q".data) ("a&b".data) ("z1".data)
    ("z2".data) (by decide) (by decide) (by decide)).1

theorem hexDigit_ne_dollar (k : Nat) : hexDigit k ≠ '$' := by
  by_cases h : k < 16
  · exact (by decide : ∀ k2, k2 < 16 → hexDigit k2 ≠ '$') k h
  · unfold hexDigit
    rw [List.drop_eq_nil_of_le (by simp [hexDigits]; omega)]
    decide

theorem percentByte_no_dollar (b : Nat) : '$' ∉ percentByte b := by
  unfold percentByte
  intro h
  simp only [List.mem_cons, List.not_mem_nil, or_false] at h
  rcases h with h | h | h
  · exact absurd h (by decide)
  · exact hexDigit_ne_dollar (b / 16) h.symm
  · exact hexDigit_ne_dollar (b % 16) h.symm

theorem dollar_not_mem_encode (v : Str) : '$' ∉ encodeURIComponent v := by
  unfold encodeURIComponent
  intro h
  rw [List.mem_flatten] at h
  obtain ⟨l, hl, hmem⟩ := h
  rw [List.mem_map] at hl
  obtain ⟨c, -, rfl⟩ := hl
  by_cases hu : uriUnreserved c = true
  · rw [if_pos hu] at hmem
    simp only [List.mem_singleton] at hmem
    rw [← hmem] at hu
    exact absurd hu (by decide)
  · rw [if_neg hu] at hmem
    rw [List.mem_flatten] at hmem
    obtain ⟨l2, hl2, hmem2⟩ := hmem
    rw [List.mem_map] at hl2
    obtain ⟨b, -, rfl⟩ := hl2
    exact percentByte_no_dollar b hmem2

theorem composeQuery_of_ok (url0 : Str) (qps : List (Str × ParamValue))
    (pairs : List Str) (qmap : List (Str × Str))
    (h : buildQueryPairs qps [] [] = .ok (pairs, qmap)) :
    composeQuery url0 qps =
      .ok ((if url0 ≠ [] ∧ '?' ∉ url0 then url0 ++ ['?'] else url0)
        ++ joinAmp pairs, qmap) := by
  simp only [composeQuery, h]

/-- C7 counterexample: with skipUrlEncoding true and the value "$&", path
substitution is not verbatim: url.replace (line 166) processes JS
$-substitution patterns in the replacement, so the substituted text is the
matched placeholder itself and the resolved url still ends in "{x}"; query
composition (line 204), which concatenates instead of replacing, keeps the
literal "$&". The value is therefore not substituted verbatim, and the two
sites do not apply the same policy. -/
theorem c7_counterexample_dollar_not_verbatim :
    resolvePathUrl none ("/{x}".data)
      (some [("x".data, .obj (some ("$&".data)) true)])
      = .ok (defaultBaseUrl ++ "/{x}".data) ∧
    composeQuery ("http://h".data) [("q".data, .obj (some ("$&".data)) true)]
      = .ok ("http://h?q=$&".data, [("q".data, "$&".data)]) ∧
    ("$&".data : Str) ≠ "{x}".data :=
  ⟨rfl, rfl, by decide⟩

/-- C7 (amended): for a wrapper-object parameter with a truthy value: with
skipUrlEncoding false or absent the value is percent-encoded first; with
skipUrlEncoding truthy the value is used as-is — always verbatim in query
composition (which concatenates), and verbatim in template resolution
provided the value contains no dollar sign (url.replace otherwise expands
JS $-substitution patterns, see the counterexample). Percent-encoded output
never contains a dollar sign, so the encoded branch substitutes literally
for every value. -/
theorem c7_skip_url_encoding_policy_amended (v : Str) (sk : Bool)
    (hv : v ≠ []) (hd : '$' ∉ v) :
    resolvePathUrl none ("/{x}".data) (some [("x".data, .obj (some v) sk)])
      = .ok (defaultBaseUrl ++ '/' :: (if sk then v else encodeURIComponent v)) ∧
    composeQuery ("http://h".data) [("q".data, .obj (some v) sk)]
      = .ok ("http://h?q=".data ++ (if sk then v else encodeURIComponent v),
             [("q".data, if sk then v else encodeURIComponent v)]) := by
  constructor
  · have hred : resolvePathUrl none ("/{x}".data)
        (some [("x".data, ParamValue.obj (some v) sk)])
        = (if v = [] then .error (.missingPathParamValue ("x".data))
           else .ok (jsReplaceFirst (defaultBaseUrl ++ '/' :: "{x}".data)
             ("{x}".data) (if sk then v else encodeURIComponent v))) := rfl
    rw [hred, if_neg hv]
    congr 1
    have hdp : '$' ∉ (if sk then v else encodeURIComponent v) := by
      cases sk
      · exact dollar_not_mem_encode v
      · exact hd
    have heq : defaultBaseUrl ++ '/' :: "{x}".data
        = (defaultBaseUrl ++ ['/']) ++ ("{x}".data ++ []) := by simp
    rw [heq, jsReplaceFirst_mid_nd (defaultBaseUrl ++ ['/']) ("{x}".data) []
      (if sk then v else encodeURIComponent v) '{' ("x\x7d".data) rfl
      (by decide) hdp]
    simp
  · have hb : buildQueryPairs [("q".data, ParamValue.obj (some v) sk)] [] []
        = .ok (["q".data ++ '=' :: (if sk then v else encodeURIComponent v)],
               [("q".data, if sk then v else encodeURIComponent v)]) := by
      cases sk
      · rw [show buildQueryPairs [("q".data, ParamValue.obj (some v) false)] [] []
            = (if v = []
               then Except.error (PrepareError.missingQueryParamValue ("q".data))
               else Except.ok (["q".data ++ '=' :: encodeURIComponent v],
                 [("q".data, encodeURIComponent v)])) from rfl, if_neg hv]
        rfl
      · rw [show buildQueryPairs [("q".data, ParamValue.obj (some v) true)] [] []
            = (if v = []
               then Except.error (PrepareError.missingQueryParamValue ("q".data))
               else Except.ok (["q".data ++ '=' :: v], [("q".data, v)]))
            from rfl, if_neg hv]
        rfl
    rw [composeQuery_of_ok _ _ _ _ hb]
    rfl

/-- C7 witness: the amended theorem at the spec's concrete input: the path
segment and query value for the wrapper object with value "a b" (no dollar
sign) and skipUrlEncoding true are the literal, unencoded "a b". -/
theorem c7_skip_url_encoding_policy_amended_witness :
    resolvePathUrl none ("/{x}".data)
      (some [("x".data, .obj (some ("a b".data)) true)])
      = .ok (defaultBaseUrl ++ "/a b".data) ∧
    composeQuery ("http://h".data)
      [("q".data, .obj (some ("a b".data)) true)]
      = .ok ("http://h?q=a b".data, [("q".data, "a b".data)]) := by
  obtain ⟨h1, h2⟩ := c7_skip_url_encoding_policy_amended ("a b".data) true
    (by decide) (by decide)
  exact ⟨h1.trans (by rfl), h2.trans (by rfl)⟩

def opts8 (pt : Str) (v : Str) : RequestPrepareOptions :=
  { method := some ("GET".data)
    pathTemplate := some pt
    pathParameters := some [("x".data, .str v)] }

/-- C8: for a prepare call with pathTemplate "/a/{x}/b" (or the same template
without its leading slash) and string path parameter x := v, with no explicit
baseUrl, the resolved url is the fixed default base joined with exactly one
slash and the placeholder replaced by the percent-encoded value:
"https://management.azure.com/a/" ++ encodeURIComponent v ++ "/b". -/
theorem c8_template_resolution (v : Str) (uuid : Str) :
    (prepare freshWR (opts8 ("/a/{x}/b".data) v) uuid).map WebResource.url
      = .ok ("https://management.azure.com/a/".data
          ++ (encodeURIComponent v ++ "/b".data)) ∧
    (prepare freshWR (opts8 ("a/{x}/b".data) v) uuid).map WebResource.url
      = .ok ("https://management.azure.com/a/".data
          ++ (encodeURIComponent v ++ "/b".data)) := by
  have heq : defaultBaseUrl ++ '/' :: "a/{x}/b".data
      = ("https://management.azure.com/a/".data) ++ ("{x}".data ++ "/b".data) := by
    decide
  have hmid := jsReplaceFirst_mid_nd ("https://management.azure.com/a/".data)
    ("{x}".data) ("/b".data) (encodeURIComponent v) '{' ("x\x7d".data) rfl
    (by decide) (dollar_not_mem_encode v)
  constructor
  · show Except.ok (jsReplaceFirst (defaultBaseUrl ++ '/' :: "a/{x}/b".data)
        ("{x}".data) (encodeURIComponent v))
      = Except.ok ("https://management.azure.com/a/".data
        ++ (encodeURIComponent v ++ "/b".data))
    rw [heq, hmid]
  · show Except.ok (jsReplaceFirst (defaultBaseUrl ++ '/' :: "a/{x}/b".data)
        ("{x}".data) (encodeURIComponent v))
      = Except.ok ("https://management.azure.com/a/".data
        ++ (encodeURIComponent v ++ "/b".data))
    rw [heq, hmid]

theorem readH_append_len (hp : HeaderHeap) (x : Headers) :
    readH (hp ++ [x]) hp.length = x := by
  induction hp with
  | nil => rfl
  | cons y rest ih => simpa [readH] using ih

theorem readH_append_lt (hp : HeaderHeap) (x : Headers) (r : Nat)
    (h : r < hp.length) : readH (hp ++ [x]) r = readH hp r := by
  induction hp generalizing r with
  | nil => exact absurd h (by simp)
  | cons y rest ih =>
    cases r with
    | zero => rfl
    | succ r' =>
      simp only [List.cons_append, readH]
      exact ih r' (by simpa using h)

theorem readH_writeH_ne (hp : HeaderHeap) (r r' : Nat) (h : Headers)
    (hne : r ≠ r') : readH (writeH hp r' h) r = readH hp r := by
  induction hp generalizing r r' with
  | nil => rfl
  | cons y rest ih =>
    cases r' with
    | zero =>
      cases r with
      | zero => exact absurd rfl hne
      | succ r2 => rfl
    | succ r2 =>
      cases r with
      | zero => rfl
      | succ r3 =>
        simp only [writeH, readH]
        exact ih r3 r2 (fun hh => hne (by rw [hh]))

theorem jsOrStr_nil (s : Str) : jsOrStr s [] = s := by
  unfold jsOrStr
  split
  · rename_i h
    exact h.symm
  · rfl

def prep10 : Except PrepareError WebResource :=
  prepare freshWR (opts3 []) ("u".data)

def w10 : WebResource := okD prep10 freshWR

/-- C10 counterexample: a descriptor produced by a successful prepare call
with the empty method (see C3) does not have its method copied by clone: the
constructor's `method || "GET"` normalizes the falsy method to GET, so "all
scalar fields are copied" fails for this descriptor. -/
theorem c10_counterexample_method_normalized :
    prepOk prep10 = true ∧ w10.method = [] ∧
    (cloneWR [w10.headers] (toRef w10 0)).2.method = "GET".data :=
  ⟨rfl, rfl, rfl⟩

/-- C10 (amended): for every descriptor whose method is truthy, clone
produces a descriptor with a fresh header container holding the same
entries, so that mutating either container's headers afterwards leaves the
other's unchanged; body, query, formData, operationSpec and the
callback/cancellation handles are shared, and the scalar fields are copied
(a falsy method would instead be normalized to "GET" by the constructor).
Clone performs no validation: it is a total function, defined whatever the
field values are. -/
theorem c10_clone_independence (hp : HeaderHeap) (w : WebResourceRef)
    (hp' : HeaderHeap) (c : WebResourceRef)
    (hm : w.method ≠ []) (hr : w.headersRef < hp.length)
    (hc : cloneWR hp w = (hp', c)) :
    c.headersRef ≠ w.headersRef ∧
    readH hp' c.headersRef = readH hp w.headersRef ∧
    readH hp' w.headersRef = readH hp w.headersRef ∧
    (∀ n v, readH (setHeaderAt hp' c.headersRef n v) w.headersRef
      = readH hp w.headersRef) ∧
    (∀ n v, readH (setHeaderAt hp' w.headersRef n v) c.headersRef
      = readH hp w.headersRef) ∧
    c.url = w.url ∧ c.method = w.method ∧ c.body = w.body ∧
    c.query = w.query ∧ c.formData = w.formData ∧
    c.operationSpec = w.operationSpec ∧ c.rawResponse = w.rawResponse ∧
    c.abortSignal = w.abortSignal ∧
    c.onUploadProgress = w.onUploadProgress ∧
    c.onDownloadProgress = w.onDownloadProgress := by
  have hc1 : hp' = hp ++ [readH hp w.headersRef] :=
    (congrArg Prod.fst hc).symm
  have hc2 : c = { url := jsOrStr w.url []
                   method := jsOrStr w.method ("GET".data)
                   body := w.body
                   headersRef := hp.length
                   rawResponse := w.rawResponse
                   formData := w.formData
                   query := w.query
                   operationSpec := w.operationSpec
                   abortSignal := w.abortSignal
                   onUploadProgress := w.onUploadProgress
                   onDownloadProgress := w.onDownloadProgress } :=
    (congrArg Prod.snd hc).symm
  subst hc1
  subst hc2
  have hne : hp.length ≠ w.headersRef := by omega
  refine ⟨hne, readH_append_len _ _, readH_append_lt _ _ _ hr,
    ?_, ?_, jsOrStr_nil _, ?_, rfl, rfl, rfl, rfl, rfl, rfl, rfl, rfl⟩
  · intro n v
    rw [setHeaderAt, readH_writeH_ne _ _ _ _ (fun hh => hne hh.symm)]
    exact readH_append_lt _ _ _ hr
  · intro n v
    rw [setHeaderAt, readH_writeH_ne _ _ _ _ hne]
    exact readH_append_len _ _
  · show jsOrStr w.method ("GET".data) = w.method
    unfold jsOrStr
    rw [if_neg hm]

def hp10 : HeaderHeap := [[(ctName, "v".data)]]

def w10r : WebResourceRef := toRef wr2C9 0

/-- C10 witness: the amended theorem at a concrete descriptor: the clone
gets a distinct header reference, a header mutation through the clone's
reference leaves the original's container unchanged, and the method is
copied. -/
theorem c10_clone_independence_witness :
    (cloneWR hp10 w10r).2.headersRef ≠ w10r.headersRef ∧
    readH (setHeaderAt (cloneWR hp10 w10r).1 (cloneWR hp10 w10r).2.headersRef
      ("X".data) ("y".data)) w10r.headersRef = [(ctName, "v".data)] ∧
    (cloneWR hp10 w10r).2.method = w10r.method := by
  have h := c10_clone_independence hp10 w10r (cloneWR hp10 w10r).1
    (cloneWR hp10 w10r).2 (by decide) (by decide) rfl
  exact ⟨h.1, (h.2.2.2.1 ("X".data) ("y".data)).trans (by decide),
    h.2.2.2.2.2.2.1⟩
